import Mathlib

/-!
I2S parallel output driver: descriptor chains, setup and buffer flip

A shallow embedding of `main/i2s_parallel.c`.

* C `int` is 32-bit two's complement and `size_t` is 32-bit unsigned (the
  driver casts descriptor addresses to `uint32_t`); conversions are written
  with `toInt32` and `toUInt32`.
* A pointer to a DMA descriptor is an allocation together with an element
  index, so the entry in front of an array (index `-1`) can be named.
* The hardware structures `lldesc_t` and `i2s_dev_t` come from SoC headers
  outside the repository; their bit-field widths are not modelled and a field
  holds the value the code assigns to it.
* The counter `n` of `fill_dma_desc` is not reduced to 32 bits: it only grows
  by one per descriptor written.
-/

namespace I2SParallel

/-! ## Machine integers -/

/-- Conversion to C `int`: reduction to the range `-2^31 .. 2^31 - 1`. -/
def toInt32 (x : Int) : Int := (x + 2147483648) % 4294967296 - 2147483648

/-- Conversion to C `size_t` / `unsigned`: reduction modulo `2^32`. -/
def toUInt32 (x : Int) : Int := x % 4294967296

/-- Largest value of a C `int`. -/
def INT_MAX : Int := 2147483647

/-! ## Data model -/

/-- The macro `DMA_MAX`, written `(4096-4)` in the source. -/
def DMA_MAX : Int := 4096 - 4

/-- Modelled from the spec: the segment record `i2s_parallel_buffer_desc_t`
(`{memory pointer, size in bytes}`), declared in `i2s_parallel.h`, which is not
among the sources. `memory` is an address, `0` being `NULL`; `size` is a
`size_t` value. A buffer description is a C array of such records, read up to
the first entry whose `memory` is `NULL`. -/
structure i2s_parallel_buffer_desc_t where
  memory : Nat
  size : Nat
deriving DecidableEq, Repr

/-- A pointer to a DMA descriptor: `&arr[index]` for the array allocated as
`block`. -/
structure desc_ptr where
  block : Nat
  index : Int
deriving DecidableEq, Repr

/-- The fields of `lldesc_t` (declared in `rom/lldesc.h`) that the driver
writes; `stqe_next` stands for `qe.stqe_next`. -/
structure lldesc_t where
  size : Int
  length : Int
  buf : Int
  eof : Int
  sosf : Int
  owner : Int
  stqe_next : desc_ptr
  offset : Int
deriving DecidableEq, Repr

/-- Descriptor memory: the content of entry `index` of allocation `block`.
Indices outside an array stand for the memory around it. -/
abbrev dma_heap := Nat → Int → lldesc_t

/-- An assignment to fields of `arr[i]`, for the array allocated as `blk`. -/
def modify (h : dma_heap) (blk : Nat) (i : Int) (f : lldesc_t → lldesc_t) : dma_heap :=
  fun b j => if b = blk ∧ j = i then f (h b j) else h b j

/-! ## Descriptor builder -/

/-- The loop of `calc_needed_dma_descs_for`; `ret` is the running count. The
quotient is computed in `size_t` and added to the `int` counter. The loop
stops at the first entry whose `memory` is `NULL` (and where the array ends,
should it hold no such entry). -/
def calc_loop : List i2s_parallel_buffer_desc_t → Int → Int
  | [], ret => ret
  | d :: rest, ret =>
    if d.memory = 0 then ret
    else
      calc_loop rest
        (toInt32 (toUInt32 (toUInt32 ret
          + toUInt32 (toUInt32 ((d.size : Int) + DMA_MAX) - 1) / DMA_MAX)))

/-- The function `calc_needed_dma_descs_for`. -/
def calc_needed_dma_descs_for (desc : List i2s_parallel_buffer_desc_t) : Int :=
  calc_loop desc 0

/-- The `while(len)` loop of `fill_dma_desc`, for one segment. The first
argument bounds the number of rounds; each round with `len ≠ 0` brings `len`
closer to `0`, so `len.natAbs` rounds are enough (`fill_while_fuel`). Returns
`n` and the memory. -/
def fill_while : Nat → Nat → Int → Int → Int → dma_heap → Int × dma_heap
  | 0, _, _, _, n, h => (n, h)
  | fuel + 1, dmadesc, len, data, n, h =>
    if len = 0 then (n, h)
    else
      let dmalen := if len > DMA_MAX then DMA_MAX else len
      let h := modify h dmadesc n (fun d => { d with size := dmalen })
      let h := modify h dmadesc n (fun d => { d with length := dmalen })
      let h := modify h dmadesc n (fun d => { d with buf := data })
      let h := modify h dmadesc n (fun d => { d with eof := 0 })
      let h := modify h dmadesc n (fun d => { d with sosf := 0 })
      let h := modify h dmadesc n (fun d => { d with owner := 1 })
      let h := modify h dmadesc n (fun d => { d with stqe_next := ⟨dmadesc, n + 1⟩ })
      let h := modify h dmadesc n (fun d => { d with offset := 0 })
      fill_while fuel dmadesc (len - dmalen) (data + dmalen) (n + 1) h

/-- The `for` loop of `fill_dma_desc` over the segments, from counter `n`. -/
def fill_for : List i2s_parallel_buffer_desc_t → Nat → Int → dma_heap → Int × dma_heap
  | [], _, n, h => (n, h)
  | d :: rest, dmadesc, n, h =>
    if d.memory = 0 then (n, h)
    else
      let len := toInt32 (d.size : Int)
      let r := fill_while len.natAbs dmadesc len (d.memory : Int) n h
      fill_for rest dmadesc r.1 r.2

/-- The function `fill_dma_desc`: the loops, then the link of entry `n-1` back
to entry `0`. Returns the number `n` it prints and the memory. -/
def fill_dma_desc (dmadesc : Nat) (bufdesc : List i2s_parallel_buffer_desc_t)
    (h : dma_heap) : Int × dma_heap :=
  let r := fill_for bufdesc dmadesc 0 h
  (r.1, modify r.2 dmadesc (r.1 - 1) (fun d => { d with stqe_next := ⟨dmadesc, 0⟩ }))

/-! ## Peripheral registers and driver state -/

/-- The bit fields of register `conf` that the driver writes. -/
structure conf_reg where
  rx_reset : Int
  tx_reset : Int
  rx_fifo_reset : Int
  tx_fifo_reset : Int
  tx_right_first : Int
  rx_right_first : Int
  tx_start : Int
deriving DecidableEq, Repr

/-- The bit fields of register `lc_conf`: the four reset bits the driver
pulses and the two burst bits named by the masks it stores in `val`. -/
structure lc_conf_reg where
  in_rst : Int
  out_rst : Int
  ahbm_rst : Int
  ahbm_fifo_rst : Int
  outdscr_burst_en : Int
  out_data_burst_en : Int
deriving DecidableEq, Repr

/-- Register `conf2`. -/
structure conf2_reg where
  lcd_en : Int
deriving DecidableEq, Repr

/-- Register `sample_rate_conf`. -/
structure sample_rate_conf_reg where
  rx_bits_mod : Int
  tx_bits_mod : Int
  rx_bck_div_num : Int
  tx_bck_div_num : Int
deriving DecidableEq, Repr

/-- Register `clkm_conf`. -/
structure clkm_conf_reg where
  clka_en : Int
  clkm_div_a : Int
  clkm_div_b : Int
  clkm_div_num : Int
deriving DecidableEq, Repr

/-- Register `fifo_conf`. -/
structure fifo_conf_reg where
  rx_fifo_mod_force_en : Int
  tx_fifo_mod_force_en : Int
  tx_fifo_mod : Int
  rx_data_num : Int
  tx_data_num : Int
  dscr_en : Int
deriving DecidableEq, Repr

/-- Register `conf1`. -/
structure conf1_reg where
  tx_stop_en : Int
  tx_pcm_bypass : Int
deriving DecidableEq, Repr

/-- Register `conf_chan`. -/
structure conf_chan_reg where
  tx_chan_mod : Int
  rx_chan_mod : Int
deriving DecidableEq, Repr

/-- Register `out_link`: the descriptor address and the start bit. -/
structure out_link_reg where
  addr : desc_ptr
  start : Int
deriving DecidableEq, Repr

/-- The registers of one I2S unit (`i2s_dev_t`, declared in
`soc/i2s_struct.h`) that the driver writes. `timing` is only written as a
whole (`timing.val`). -/
structure i2s_dev_t where
  conf : conf_reg
  lc_conf : lc_conf_reg
  conf2 : conf2_reg
  sample_rate_conf : sample_rate_conf_reg
  clkm_conf : clkm_conf_reg
  fifo_conf : fifo_conf_reg
  conf1 : conf1_reg
  conf_chan : conf_chan_reg
  timing : Int
  out_link : out_link_reg
deriving DecidableEq, Repr

/-- The record `i2s_parallel_state_t`; a descriptor array is named by its
allocation. -/
structure i2s_parallel_state_t where
  dmadesc_a : Nat
  dmadesc_b : Nat
  desccount_a : Int
  desccount_b : Int
deriving DecidableEq, Repr

/-- Modelled from the spec: the configuration record `i2s_parallel_config_t`
(`{bit width, output pin assignments, clock pin, clock frequency in Hz, buffer A
descriptor list, buffer B descriptor list}`), declared in `i2s_parallel.h`,
which is not among the sources. A pin value of `-1` means "leave
unconnected". -/
structure i2s_parallel_config_t where
  gpio_bus : List Int
  gpio_clk : Int
  clkspeed_hz : Int
  bits : Int
  bufa : List i2s_parallel_buffer_desc_t
  bufb : List i2s_parallel_buffer_desc_t
deriving DecidableEq, Repr

/-- The argument `dev` of the entry points: the address of one of the two
units. -/
inductive i2s_dev_ptr where
  | I2S0
  | I2S1
deriving DecidableEq, Repr

/-- Modelled from the spec: the enumerator `I2S_PARALLEL_BITS_32` of the bit
width enumeration (8/16/24/32) declared in `i2s_parallel.h`. -/
def I2S_PARALLEL_BITS_32 : Int := 32

/-- The numbers of the peripheral output signals the driver routes: macros of
the SoC headers, taken as parameters. -/
structure signal_idx where
  I2S0O_DATA_OUT0_IDX : Int
  I2S0O_WS_OUT_IDX : Int
  I2S1O_DATA_OUT0_IDX : Int
  I2S1O_DATA_OUT8_IDX : Int
  I2S1O_WS_OUT_IDX : Int
deriving DecidableEq, Repr

/-- The program state: the global `i2s_state[2]`, the descriptor memory, the
allocator (the next allocation it hands out), the registers of both units, the
routes made in the GPIO matrix as pairs (pin, signal), latest last, and the
units whose power gating has been enabled, latest last. -/
structure machine where
  i2s_state : Fin 2 → Option i2s_parallel_state_t
  heap : dma_heap
  next_block : Nat
  I2S0 : i2s_dev_t
  I2S1 : i2s_dev_t
  gpio_out : List (Int × Int)
  periph_enabled : List i2s_dev_ptr

/-- The registers `dev` points to. -/
def machine.regs (s : machine) : i2s_dev_ptr → i2s_dev_t
  | .I2S0 => s.I2S0
  | .I2S1 => s.I2S1

/-- Store the registers `dev` points to. -/
def machine.set_regs (s : machine) (dev : i2s_dev_ptr) (d : i2s_dev_t) : machine :=
  match dev with
  | .I2S0 => { s with I2S0 := d }
  | .I2S1 => { s with I2S1 := d }

/-- The function `gpio_setup_out`: nothing for pin `-1`; otherwise the pin is
made a GPIO output and wired to the signal. -/
def gpio_setup_out (gpio sig : Int) (g : List (Int × Int)) : List (Int × Int) :=
  if gpio = -1 then g else g ++ [(gpio, sig)]

/-- A write to bit fields of `dev->conf`. -/
def i2s_dev_t.w_conf (d : i2s_dev_t) (f : conf_reg → conf_reg) : i2s_dev_t :=
  { d with conf := f d.conf }

/-- A write to `dev->lc_conf`. -/
def i2s_dev_t.w_lc_conf (d : i2s_dev_t) (f : lc_conf_reg → lc_conf_reg) : i2s_dev_t :=
  { d with lc_conf := f d.lc_conf }

/-- A write to `dev->conf2`. -/
def i2s_dev_t.w_conf2 (d : i2s_dev_t) (f : conf2_reg → conf2_reg) : i2s_dev_t :=
  { d with conf2 := f d.conf2 }

/-- A write to `dev->sample_rate_conf`. -/
def i2s_dev_t.w_sample_rate_conf (d : i2s_dev_t)
    (f : sample_rate_conf_reg → sample_rate_conf_reg) : i2s_dev_t :=
  { d with sample_rate_conf := f d.sample_rate_conf }

/-- A write to `dev->clkm_conf`. -/
def i2s_dev_t.w_clkm_conf (d : i2s_dev_t) (f : clkm_conf_reg → clkm_conf_reg) : i2s_dev_t :=
  { d with clkm_conf := f d.clkm_conf }

/-- A write to `dev->fifo_conf`. -/
def i2s_dev_t.w_fifo_conf (d : i2s_dev_t) (f : fifo_conf_reg → fifo_conf_reg) : i2s_dev_t :=
  { d with fifo_conf := f d.fifo_conf }

/-- A write to `dev->conf1`. -/
def i2s_dev_t.w_conf1 (d : i2s_dev_t) (f : conf1_reg → conf1_reg) : i2s_dev_t :=
  { d with conf1 := f d.conf1 }

/-- A write to `dev->conf_chan`. -/
def i2s_dev_t.w_conf_chan (d : i2s_dev_t) (f : conf_chan_reg → conf_chan_reg) : i2s_dev_t :=
  { d with conf_chan := f d.conf_chan }

/-- A write to `dev->timing.val`. -/
def i2s_dev_t.w_timing (d : i2s_dev_t) (v : Int) : i2s_dev_t :=
  { d with timing := v }

/-- A write to `dev->out_link`. -/
def i2s_dev_t.w_out_link (d : i2s_dev_t) (f : out_link_reg → out_link_reg) : i2s_dev_t :=
  { d with out_link := f d.out_link }

/-- The function `dma_reset`. -/
def dma_reset (d : i2s_dev_t) : i2s_dev_t :=
  d |>.w_lc_conf (fun r => { r with in_rst := 1 })
    |>.w_lc_conf (fun r => { r with in_rst := 0 })
    |>.w_lc_conf (fun r => { r with out_rst := 1 })
    |>.w_lc_conf (fun r => { r with out_rst := 0 })

/-- The function `fifo_reset`. -/
def fifo_reset (d : i2s_dev_t) : i2s_dev_t :=
  d |>.w_conf (fun r => { r with rx_fifo_reset := 1 })
    |>.w_conf (fun r => { r with rx_fifo_reset := 0 })
    |>.w_conf (fun r => { r with tx_fifo_reset := 1 })
    |>.w_conf (fun r => { r with tx_fifo_reset := 0 })

/-- The function `i2snum`. -/
def i2snum (dev : i2s_dev_ptr) : Fin 2 :=
  if dev = .I2S0 then 0 else 1

/-- The register writes of `i2s_parallel_setup` from "Initialize I2S dev" up
to `timing.val=0`, in source order. A write of `0` to `val` clears every field
of the register. -/
def setup_init_regs (cfg : i2s_parallel_config_t) (d : i2s_dev_t) : i2s_dev_t :=
  d |>.w_conf (fun r => { r with rx_reset := 1 })
    |>.w_conf (fun r => { r with rx_reset := 0 })
    |>.w_conf (fun r => { r with tx_reset := 1 })
    |>.w_conf (fun r => { r with tx_reset := 0 })
    |> dma_reset
    |> fifo_reset
    |>.w_conf2 (fun _ => ⟨0⟩)
    |>.w_conf2 (fun r => { r with lcd_en := 1 })
    |>.w_sample_rate_conf (fun _ => ⟨0, 0, 0, 0⟩)
    |>.w_sample_rate_conf (fun r => { r with rx_bits_mod := cfg.bits })
    |>.w_sample_rate_conf (fun r => { r with tx_bits_mod := cfg.bits })
    |>.w_sample_rate_conf (fun r => { r with rx_bck_div_num := 4 })
    |>.w_sample_rate_conf (fun r => { r with tx_bck_div_num := 4 })
    |>.w_clkm_conf (fun _ => ⟨0, 0, 0, 0⟩)
    |>.w_clkm_conf (fun r => { r with clka_en := 0 })
    |>.w_clkm_conf (fun r => { r with clkm_div_a := 63 })
    |>.w_clkm_conf (fun r => { r with clkm_div_b := 63 })
    |>.w_clkm_conf (fun r => { r with clkm_div_num := Int.tdiv 80000000 cfg.clkspeed_hz })
    |>.w_fifo_conf (fun _ => ⟨0, 0, 0, 0, 0, 0⟩)
    |>.w_fifo_conf (fun r => { r with rx_fifo_mod_force_en := 1 })
    |>.w_fifo_conf (fun r => { r with tx_fifo_mod_force_en := 1 })
    |>.w_fifo_conf (fun r => { r with tx_fifo_mod := 1 })
    |>.w_fifo_conf (fun r => { r with tx_fifo_mod := 1 })
    |>.w_fifo_conf (fun r => { r with rx_data_num := 32 })
    |>.w_fifo_conf (fun r => { r with tx_data_num := 32 })
    |>.w_fifo_conf (fun r => { r with dscr_en := 1 })
    |>.w_conf1 (fun _ => ⟨0, 0⟩)
    |>.w_conf1 (fun r => { r with tx_stop_en := 0 })
    |>.w_conf1 (fun r => { r with tx_pcm_bypass := 1 })
    |>.w_conf_chan (fun _ => ⟨0, 0⟩)
    |>.w_conf_chan (fun r => { r with tx_chan_mod := 1 })
    |>.w_conf_chan (fun r => { r with rx_chan_mod := 1 })
    |>.w_conf (fun r => { r with tx_right_first := 1 })
    |>.w_conf (fun r => { r with rx_right_first := 1 })
    |>.w_timing 0

/-- The register writes of `i2s_parallel_setup` after the descriptors are
filled: the second reset, then "Start dma on front buffer" with the address
`head` of chain A. The value stored in `lc_conf.val` has the two burst bits
set and every other bit clear. -/
def setup_start_regs (head : desc_ptr) (d : i2s_dev_t) : i2s_dev_t :=
  d |>.w_lc_conf (fun r => { r with in_rst := 1 })
    |>.w_lc_conf (fun r => { r with out_rst := 1 })
    |>.w_lc_conf (fun r => { r with ahbm_rst := 1 })
    |>.w_lc_conf (fun r => { r with ahbm_fifo_rst := 1 })
    |>.w_lc_conf (fun r => { r with in_rst := 0 })
    |>.w_lc_conf (fun r => { r with out_rst := 0 })
    |>.w_lc_conf (fun r => { r with ahbm_rst := 0 })
    |>.w_lc_conf (fun r => { r with ahbm_fifo_rst := 0 })
    |>.w_conf (fun r => { r with tx_reset := 1 })
    |>.w_conf (fun r => { r with tx_fifo_reset := 1 })
    |>.w_conf (fun r => { r with rx_fifo_reset := 1 })
    |>.w_conf (fun r => { r with tx_reset := 0 })
    |>.w_conf (fun r => { r with tx_fifo_reset := 0 })
    |>.w_conf (fun r => { r with rx_fifo_reset := 0 })
    |>.w_lc_conf (fun _ => ⟨0, 0, 0, 0, 1, 1⟩)
    |>.w_out_link (fun r => { r with addr := head })
    |>.w_out_link (fun r => { r with start := 1 })
    |>.w_conf (fun r => { r with tx_start := 1 })

/-- The signal routing at the start of `i2s_parallel_setup`: the choice of
`sig_data_base` and `sig_clk`, the loop over the data pins and the clock pin.
A pin slot that `gpio_bus` does not hold counts as unused. -/
def setup_route_signals (sig : signal_idx) (dev : i2s_dev_ptr) (cfg : i2s_parallel_config_t)
    (g : List (Int × Int)) : List (Int × Int) :=
  let sig_data_base :=
    if dev = .I2S0 then sig.I2S0O_DATA_OUT0_IDX
    else if cfg.bits = I2S_PARALLEL_BITS_32 then sig.I2S1O_DATA_OUT0_IDX
    else sig.I2S1O_DATA_OUT8_IDX
  let sig_clk := if dev = .I2S0 then sig.I2S0O_WS_OUT_IDX else sig.I2S1O_WS_OUT_IDX
  let g := (List.range cfg.bits.toNat).foldl
    (fun g x => gpio_setup_out (cfg.gpio_bus.getD x (-1)) (sig_data_base + (x : Int)) g) g
  gpio_setup_out cfg.gpio_clk sig_clk g

/-- The function `i2s_parallel_setup`: signal routing, power gating, the
register writes, the two descriptor chains, the start of the engine. Each
`heap_caps_malloc` hands out the next allocation; a failing allocation is not
modelled. -/
def i2s_parallel_setup (sig : signal_idx) (dev : i2s_dev_ptr) (cfg : i2s_parallel_config_t)
    (s : machine) : machine :=
  let g := setup_route_signals sig dev cfg s.gpio_out
  let pe := s.periph_enabled ++ [if dev = .I2S0 then i2s_dev_ptr.I2S0 else i2s_dev_ptr.I2S1]
  let d := setup_init_regs cfg (s.regs dev)
  let desccount_a := calc_needed_dma_descs_for cfg.bufa
  let desccount_b := calc_needed_dma_descs_for cfg.bufb
  let dmadesc_a := s.next_block
  let dmadesc_b := s.next_block + 1
  let st : i2s_parallel_state_t := ⟨dmadesc_a, dmadesc_b, desccount_a, desccount_b⟩
  let h := (fill_dma_desc dmadesc_a cfg.bufa s.heap).2
  let h := (fill_dma_desc dmadesc_b cfg.bufb h).2
  let d := setup_start_regs ⟨dmadesc_a, 0⟩ d
  let s := { s with
    i2s_state := Function.update s.i2s_state (i2snum dev) (some st)
    heap := h
    next_block := s.next_block + 2
    gpio_out := g
    periph_enabled := pe }
  s.set_regs dev d

/-- The function `i2s_parallel_flip_to_buffer`. -/
def i2s_parallel_flip_to_buffer (dev : i2s_dev_ptr) (bufid : Int) (s : machine) : machine :=
  let no := i2snum dev
  match s.i2s_state no with
  | none => s
  | some st =>
    let active_dma_chain : desc_ptr :=
      if bufid = 0 then ⟨st.dmadesc_a, 0⟩ else ⟨st.dmadesc_b, 0⟩
    let h := modify s.heap st.dmadesc_a (st.desccount_a - 1)
      (fun d => { d with stqe_next := active_dma_chain })
    let h := modify h st.dmadesc_b (st.desccount_b - 1)
      (fun d => { d with stqe_next := active_dma_chain })
    { s with heap := h }

/-! ## Notions of the specification -/

/-- The segments of a buffer description: its entries in front of the first
one whose `memory` is `NULL`. -/
def segments (l : List i2s_parallel_buffer_desc_t) : List i2s_parallel_buffer_desc_t :=
  l.takeWhile (fun d => d.memory != 0)

/-- The spec's `ceil(segment_size / max_chunk)`. -/
def ceil_div (a b : Nat) : Nat :=
  if a % b = 0 then a / b else a / b + 1

/-- The spec's descriptor count: `ceil(size / 4092)` summed over the segments. -/
def spec_desc_count (l : List i2s_parallel_buffer_desc_t) : Nat :=
  ((segments l).map (fun d => ceil_div d.size 4092)).sum

/-- The length the spec gives chunk `j` of a segment of `size` bytes: what is
left of the segment `4092 * j` bytes into it, at most 4092 bytes. -/
def spec_chunk_len (size j : Nat) : Nat :=
  min 4092 (size - 4092 * j)

/-- The chunks of one segment as the spec describes them, each with its start
address (the segment's memory pointer plus 4092 times the chunk's index) and
its length. -/
def spec_chunks (d : i2s_parallel_buffer_desc_t) : List (Int × Int) :=
  (List.range (ceil_div d.size 4092)).map
    (fun (j : Nat) => ((d.memory : Int) + 4092 * (j : Int), (spec_chunk_len d.size j : Int)))

/-- The chunks of a buffer description, segments taken in list order. -/
def spec_chunk_list (l : List i2s_parallel_buffer_desc_t) : List (Int × Int) :=
  (segments l).flatMap spec_chunks

/-- The descriptor the spec asks for at index `k` of the array `blk`, for the
chunk `c`: address and length copied, frame flags clear, owned by the
hardware, linked to the entry after it. -/
def spec_entry (blk : Nat) (k : Int) (c : Int × Int) : lldesc_t :=
  { size := c.2, length := c.2, buf := c.1, eof := 0, sosf := 0, owner := 1,
    stqe_next := ⟨blk, k + 1⟩, offset := 0 }

/-- A descriptor with every field zero. -/
def zero_desc : lldesc_t := ⟨0, 0, 0, 0, 0, 0, ⟨0, 0⟩, 0⟩

/-- Descriptor memory holding zero descriptors throughout. -/
def zero_heap : dma_heap := fun _ _ => zero_desc

/-- Registers of a unit with every field zero. -/
def zero_regs : i2s_dev_t :=
  ⟨⟨0, 0, 0, 0, 0, 0, 0⟩, ⟨0, 0, 0, 0, 0, 0⟩, ⟨0⟩, ⟨0, 0, 0, 0⟩, ⟨0, 0, 0, 0⟩,
    ⟨0, 0, 0, 0, 0, 0⟩, ⟨0, 0⟩, ⟨0, 0⟩, 0, ⟨⟨0, 0⟩, 0⟩⟩

/-- The program state before any call: `i2s_state` is `{NULL, NULL}`. -/
def boot : machine := ⟨fun _ => none, zero_heap, 0, zero_regs, zero_regs, [], []⟩

/-- Signal numbers for worked examples. -/
def example_signals : signal_idx := ⟨140, 25, 166, 174, 26⟩

/-- The number `n` of entries that `fill_dma_desc` fills for a buffer
description (the number it prints). It depends on the description alone, not
on the array or on what the memory holds. -/
def filled_count (l : List i2s_parallel_buffer_desc_t) : Int :=
  (fill_dma_desc 0 l zero_heap).1

/-- The index range of the entries that `fill_dma_desc` writes for the segment
`d` when `d` follows the segments `pre`: the value of `n` when the `for`
loop reaches `d`, and its value when the `while` loop for `d` is done. -/
def segment_range (pre : List i2s_parallel_buffer_desc_t) (d : i2s_parallel_buffer_desc_t) :
    Int × Int :=
  (filled_count pre, filled_count (pre ++ [d]))

/-- A configuration for worked examples: a 16-bit bus at 1.3 MHz, buffer A in
two segments of 5000 and 3000 bytes, buffer B in one segment of 4093 bytes. -/
def example_cfg : i2s_parallel_config_t :=
  ⟨[2, 4, 5, 12, 13, 14, 15, 16, 17, 18, 19, 21, 22, 23, 25, 26], 27, 1300000, 16,
    [⟨1073610752, 5000⟩, ⟨1073676288, 3000⟩, ⟨0, 0⟩], [⟨1073741824, 4093⟩, ⟨0, 0⟩]⟩

/-- The state after unit 0 alone has been set up with the example
configuration. -/
def example_unit0 : machine := i2s_parallel_setup example_signals .I2S0 example_cfg boot

/-- The state after unit 1 alone has been set up with the example
configuration: chain A is allocation 0 with three descriptors, chain B is
allocation 1 with two. -/
def example_unit1 : machine := i2s_parallel_setup example_signals .I2S1 example_cfg boot

/-- Every segment size of the buffer description fits a C `int`. -/
abbrev sizes_fit_int (l : List i2s_parallel_buffer_desc_t) : Prop :=
  ∀ d ∈ segments l, (d.size : Int) ≤ INT_MAX

/-- Every segment size of the buffer description can be rounded up to a
multiple of `DMA_MAX` within `size_t`: it is at most `2^32 - 4092`. -/
abbrev sizes_round_up (l : List i2s_parallel_buffer_desc_t) : Prop :=
  ∀ d ∈ segments l, d.size ≤ 4294963204

/-- The spec's descriptor count of the buffer description fits a C `int`. -/
abbrev count_fits_int (l : List i2s_parallel_buffer_desc_t) : Prop :=
  (spec_desc_count l : Int) ≤ INT_MAX

/-! ## The descriptor builder: lemmas -/

theorem fill_while_zero (blk : Nat) (len data n : Int) (h : dma_heap) :
    fill_while 0 blk len data n h = (n, h) := rfl

theorem fill_while_succ (fuel blk : Nat) (len data n : Int) (h : dma_heap) :
    fill_while (fuel + 1) blk len data n h =
      if len = 0 then (n, h)
      else fill_while fuel blk (len - (if len > DMA_MAX then DMA_MAX else len))
        (data + (if len > DMA_MAX then DMA_MAX else len)) (n + 1)
        (fun b j => if b = blk ∧ j = n then
            spec_entry blk n (data, if len > DMA_MAX then DMA_MAX else len)
          else h b j) := by
  rw [fill_while]
  split
  · rfl
  · dsimp only
    congr 1
    funext b j
    simp only [modify, spec_entry]
    split <;> rfl


/-- The inner loop never lowers `n`, writes only the entries from the old `n`
up to the new one, and leaves each of them fully initialised. -/
theorem fill_while_frame (blk : Nat) (fuel : Nat) : ∀ (len data n : Int) (h : dma_heap),
    n ≤ (fill_while fuel blk len data n h).1 ∧
    (∀ b j, ¬(b = blk ∧ n ≤ j ∧ j < (fill_while fuel blk len data n h).1) →
      (fill_while fuel blk len data n h).2 b j = h b j) ∧
    (∀ j, n ≤ j → j < (fill_while fuel blk len data n h).1 →
      ∃ c, (fill_while fuel blk len data n h).2 blk j = spec_entry blk j c) := by
  induction fuel with
  | zero =>
    intro len data n h
    refine ⟨le_refl _, fun _ _ _ => rfl, fun j h1 h2 => ?_⟩
    simp only [fill_while_zero] at h2
    omega
  | succ fuel ih =>
    intro len data n h
    rw [fill_while_succ]
    split
    · refine ⟨le_refl _, fun _ _ _ => rfl, fun j h1 h2 => ?_⟩
      simp only at h2
      omega
    · obtain ⟨ih1, ih2, ih3⟩ := ih (len - (if len > DMA_MAX then DMA_MAX else len))
        (data + (if len > DMA_MAX then DMA_MAX else len)) (n + 1)
        (fun b j => if b = blk ∧ j = n then
            spec_entry blk n (data, if len > DMA_MAX then DMA_MAX else len)
          else h b j)
      refine ⟨by omega, fun b j hbj => ?_, fun j h1 h2 => ?_⟩
      · rw [ih2 b j (fun hc => hbj ⟨hc.1, by omega, hc.2.2⟩)]
        have hne : ¬(b = blk ∧ j = n) := fun hc => hbj ⟨hc.1, by omega, by omega⟩
        simp only [hne, if_false]
      · by_cases hj : j = n
        · subst hj
          rw [ih2 blk j (fun hc => by omega)]
          exact ⟨(data, if len > DMA_MAX then DMA_MAX else len), by simp⟩
        · exact ih3 j (by omega) h2

/-- The inner loop on a length that fits `int`: the count and the entries. -/
theorem fill_while_nonneg (blk : Nat) (fuel : Nat) : ∀ (len data n : Int) (h : dma_heap),
    0 ≤ len → len ≤ fuel →
    (fill_while fuel blk len data n h).1 = n + (len + 4091) / 4092 ∧
    (∀ j, n ≤ j → j < (fill_while fuel blk len data n h).1 →
      (fill_while fuel blk len data n h).2 blk j =
        spec_entry blk j (data + 4092 * (j - n), min 4092 (len - 4092 * (j - n)))) := by
  induction fuel with
  | zero =>
    intro len data n h h0 hf
    have : len = 0 := by omega
    subst this
    refine ⟨by simp [fill_while_zero], fun j h1 h2 => ?_⟩
    simp only [fill_while_zero] at h2
    omega
  | succ fuel ih =>
    intro len data n h h0 hf
    rw [fill_while_succ]
    split
    · rename_i hl
      subst hl
      refine ⟨by simp, fun j h1 h2 => ?_⟩
      simp only at h2
      omega
    · rename_i hl
      by_cases hbig : len > DMA_MAX
      · simp only [hbig, if_true]
        have hD : DMA_MAX = 4092 := rfl
        rw [hD] at hbig ⊢
        obtain ⟨ih1, ih2⟩ := ih (len - 4092) (data + 4092) (n + 1)
          (fun b j => if b = blk ∧ j = n then spec_entry blk n (data, 4092) else h b j)
          (by omega) (by push_cast at hf; omega)
        obtain ⟨f1, f2, _⟩ := fill_while_frame blk fuel (len - 4092) (data + 4092) (n + 1)
          (fun b j => if b = blk ∧ j = n then spec_entry blk n (data, 4092) else h b j)
        refine ⟨by rw [ih1]; omega, fun j h1 h2 => ?_⟩
        by_cases hj : j = n
        · subst hj
          rw [f2 blk j (fun hc => by omega)]
          simp only [and_self, if_true]
          congr 2
          · omega
          · omega
        · rw [ih2 j (by omega) h2]
          congr 2
          · omega
          · omega
      · simp only [hbig, if_false]
        have hD : DMA_MAX = 4092 := rfl
        rw [hD] at hbig
        have hz : len - len = 0 := by omega
        rw [hz]
        cases fuel with
        | zero =>
          simp only [fill_while_zero]
          refine ⟨by omega, fun j h1 h2 => ?_⟩
          have : j = n := by omega
          subst this
          simp only [and_self, if_true]
          congr 2
          · omega
          · omega
        | succ fuel =>
          rw [fill_while_succ]
          simp only [if_true]
          refine ⟨by omega, fun j h1 h2 => ?_⟩
          have : j = n := by omega
          subst this
          simp only [and_self, if_true]
          congr 2
          · omega
          · omega

/-- The count of the inner loop depends on the length alone. -/
theorem fill_while_fst (fuel : Nat) : ∀ (blk blk' : Nat) (len data data' n n' : Int)
    (h h' : dma_heap),
    (fill_while fuel blk len data n h).1 - n = (fill_while fuel blk' len data' n' h').1 - n' := by
  induction fuel with
  | zero => intros; simp [fill_while_zero]
  | succ fuel ih =>
    intro blk blk' len data data' n n' h h'
    rw [fill_while_succ, fill_while_succ]
    split
    · simp
    · have := ih blk blk' (len - (if len > DMA_MAX then DMA_MAX else len))
        (data + (if len > DMA_MAX then DMA_MAX else len))
        (data' + (if len > DMA_MAX then DMA_MAX else len)) (n + 1) (n' + 1)
        (fun b j => if b = blk ∧ j = n then
            spec_entry blk n (data, if len > DMA_MAX then DMA_MAX else len)
          else h b j)
        (fun b j => if b = blk' ∧ j = n' then
            spec_entry blk' n' (data', if len > DMA_MAX then DMA_MAX else len)
          else h' b j)
      omega

/-- The bound on the rounds of the inner loop is never reached: any bound of
at least `len.natAbs` rounds gives the same result, so the loop ends with
`len = 0`. -/
theorem fill_while_fuel (blk : Nat) (fuel : Nat) : ∀ (fuel' : Nat) (len data n : Int)
    (h : dma_heap), len.natAbs ≤ fuel → len.natAbs ≤ fuel' →
    fill_while fuel blk len data n h = fill_while fuel' blk len data n h := by
  induction fuel with
  | zero =>
    intro fuel' len data n h h1 _
    have hz : len = 0 := by omega
    subst hz
    cases fuel' with
    | zero => rfl
    | succ f => rw [fill_while_succ, if_pos rfl]; rfl
  | succ fuel ih =>
    intro fuel' len data n h h1 h2
    cases fuel' with
    | zero =>
      have hz : len = 0 := by omega
      subst hz
      rw [fill_while_succ, if_pos rfl]; rfl
    | succ f =>
      rw [fill_while_succ, fill_while_succ]
      split
      · rfl
      · have hD : DMA_MAX = 4092 := rfl
        apply ih
        · rw [hD]; split <;> omega
        · rw [hD]; split <;> omega

theorem ceil_div_eq (a : Nat) : ceil_div a 4092 = (a + 4091) / 4092 := by
  unfold ceil_div
  split <;> omega

theorem spec_chunks_length (d : i2s_parallel_buffer_desc_t) :
    (spec_chunks d).length = (d.size + 4091) / 4092 := by
  simp [spec_chunks, ceil_div_eq]

theorem segments_nil : segments [] = [] := rfl

theorem segments_cons_null (d : i2s_parallel_buffer_desc_t) (rest : List i2s_parallel_buffer_desc_t)
    (hd : d.memory = 0) : segments (d :: rest) = [] := by
  simp [segments, hd]

theorem segments_cons (d : i2s_parallel_buffer_desc_t) (rest : List i2s_parallel_buffer_desc_t)
    (hd : ¬ d.memory = 0) : segments (d :: rest) = d :: segments rest := by
  simp [segments, hd]

theorem toInt32_of_fits (x : Int) (h0 : 0 ≤ x) (h1 : x ≤ INT_MAX) : toInt32 x = x := by
  unfold toInt32
  unfold INT_MAX at h1
  omega

/-- The segment loop never lowers `n`, writes only the entries from the old `n`
up to the new one, and leaves each of them fully initialised. -/
theorem fill_for_frame (blk : Nat) : ∀ (l : List i2s_parallel_buffer_desc_t) (n : Int)
    (h : dma_heap),
    n ≤ (fill_for l blk n h).1 ∧
    (∀ b j, ¬(b = blk ∧ n ≤ j ∧ j < (fill_for l blk n h).1) →
      (fill_for l blk n h).2 b j = h b j) ∧
    (∀ j, n ≤ j → j < (fill_for l blk n h).1 →
      ∃ c, (fill_for l blk n h).2 blk j = spec_entry blk j c) := by
  intro l
  induction l with
  | nil =>
    intro n h
    refine ⟨le_refl _, fun _ _ _ => rfl, fun j h1 h2 => ?_⟩
    simp only [fill_for] at h2
    omega
  | cons d rest ih =>
    intro n h
    rw [fill_for]
    split
    · refine ⟨le_refl _, fun _ _ _ => rfl, fun j h1 h2 => ?_⟩
      simp only at h2
      omega
    · dsimp only
      obtain ⟨w1, w2, w3⟩ := fill_while_frame blk (toInt32 (d.size : Int)).natAbs
        (toInt32 (d.size : Int)) (d.memory : Int) n h
      obtain ⟨r1, r2, r3⟩ := ih
        (fill_while (toInt32 (d.size : Int)).natAbs blk (toInt32 (d.size : Int)) (d.memory : Int) n h).1
        (fill_while (toInt32 (d.size : Int)).natAbs blk (toInt32 (d.size : Int)) (d.memory : Int) n h).2
      refine ⟨le_trans w1 r1, fun b j hbj => ?_, fun j h1 h2 => ?_⟩
      · rw [r2 b j (fun hc => hbj ⟨hc.1, by omega, hc.2.2⟩)]
        exact w2 b j (fun hc => hbj ⟨hc.1, hc.2.1, by omega⟩)
      · by_cases hj : j <
          (fill_while (toInt32 (d.size : Int)).natAbs blk (toInt32 (d.size : Int)) (d.memory : Int) n h).1
        · rw [r2 blk j (fun hc => by omega)]
          exact w3 j h1 hj
        · exact r3 j (by omega) h2

/-- The count of the segment loop depends on the buffer description alone. -/
theorem fill_for_fst : ∀ (l : List i2s_parallel_buffer_desc_t) (blk blk' : Nat) (n n' : Int)
    (h h' : dma_heap),
    (fill_for l blk n h).1 - n = (fill_for l blk' n' h').1 - n' := by
  intro l
  induction l with
  | nil => intros; simp [fill_for]
  | cons d rest ih =>
    intro blk blk' n n' h h'
    rw [fill_for, fill_for]
    split
    · simp
    · dsimp only
      have e1 := fill_while_fst (toInt32 (d.size : Int)).natAbs blk blk' (toInt32 (d.size : Int))
        (d.memory : Int) (d.memory : Int) n n' h h'
      have e2 := ih blk blk'
        (fill_while (toInt32 (d.size : Int)).natAbs blk (toInt32 (d.size : Int)) (d.memory : Int) n h).1
        (fill_while (toInt32 (d.size : Int)).natAbs blk' (toInt32 (d.size : Int)) (d.memory : Int) n' h').1
        (fill_while (toInt32 (d.size : Int)).natAbs blk (toInt32 (d.size : Int)) (d.memory : Int) n h).2
        (fill_while (toInt32 (d.size : Int)).natAbs blk' (toInt32 (d.size : Int)) (d.memory : Int) n' h').2
      omega

theorem fill_for_fst_eq (blk : Nat) (l : List i2s_parallel_buffer_desc_t) (n : Int) (h : dma_heap) :
    (fill_for l blk n h).1 = n + filled_count l := by
  have := fill_for_fst l blk 0 n 0 h zero_heap
  simp only [fill_dma_desc, filled_count]
  omega

/-- Segments in front of the sentinel are processed one after the other. -/
theorem fill_for_append (blk : Nat) : ∀ (pre rest : List i2s_parallel_buffer_desc_t) (n : Int)
    (h : dma_heap), (∀ p ∈ pre, p.memory ≠ 0) →
    fill_for (pre ++ rest) blk n h =
      fill_for rest blk (fill_for pre blk n h).1 (fill_for pre blk n h).2 := by
  intro pre
  induction pre with
  | nil => intros; rfl
  | cons d pre ih =>
    intro rest n h hp
    have hd : ¬ d.memory = 0 := hp d (List.mem_cons_self _ _)
    rw [List.cons_append, fill_for, fill_for]
    simp only [hd, if_false]
    exact ih rest _ _ (fun p hp2 => hp p (List.mem_cons_of_mem _ hp2))

theorem spec_chunk_list_nil : spec_chunk_list [] = [] := rfl

theorem spec_chunk_list_cons_null (d : i2s_parallel_buffer_desc_t)
    (rest : List i2s_parallel_buffer_desc_t) (hd : d.memory = 0) :
    spec_chunk_list (d :: rest) = [] := by
  simp [spec_chunk_list, segments_cons_null d rest hd]

theorem spec_chunk_list_cons (d : i2s_parallel_buffer_desc_t)
    (rest : List i2s_parallel_buffer_desc_t) (hd : ¬ d.memory = 0) :
    spec_chunk_list (d :: rest) = spec_chunks d ++ spec_chunk_list rest := by
  simp [spec_chunk_list, segments_cons d rest hd]

theorem spec_chunk_list_length (l : List i2s_parallel_buffer_desc_t) :
    (spec_chunk_list l).length = spec_desc_count l := by
  induction l with
  | nil => rfl
  | cons d rest ih =>
    by_cases hd : d.memory = 0
    · simp [spec_chunk_list, spec_desc_count, segments_cons_null d rest hd]
    · rw [spec_chunk_list_cons d rest hd, List.length_append, ih]
      simp [spec_desc_count, segments_cons d rest hd, spec_chunks]

theorem spec_chunks_getElem? (d : i2s_parallel_buffer_desc_t) (k : Nat) (c : Int × Int)
    (hc : (spec_chunks d)[k]? = some c) :
    k < (d.size + 4091) / 4092 ∧
      c = ((d.memory : Int) + 4092 * (k : Int), (spec_chunk_len d.size k : Int)) := by
  have hk : k < (spec_chunks d).length := by
    by_contra hn
    rw [List.getElem?_eq_none (by omega)] at hc
    exact Option.noConfusion hc
  have hk2 : k < ceil_div d.size 4092 := by simpa [spec_chunks] using hk
  refine ⟨by rw [← ceil_div_eq]; exact hk2, ?_⟩
  simp only [spec_chunks, List.getElem?_map, List.getElem?_range hk2, Option.map_some'] at hc
  exact (Option.some.inj hc).symm

/-- The segment loop on sizes that fit `int`: the count is the number of the
spec's chunks and entry `n + k` holds chunk `k`. -/
theorem fill_for_in_range (blk : Nat) : ∀ (l : List i2s_parallel_buffer_desc_t) (n : Int)
    (h : dma_heap), (∀ d ∈ segments l, (d.size : Int) ≤ INT_MAX) →
    (fill_for l blk n h).1 = n + ((spec_chunk_list l).length : Int) ∧
    (∀ (k : Nat) (c : Int × Int), (spec_chunk_list l)[k]? = some c →
      (fill_for l blk n h).2 blk (n + k) = spec_entry blk (n + k) c) := by
  intro l
  induction l with
  | nil =>
    intro n h _
    refine ⟨by simp [fill_for, spec_chunk_list_nil], fun k c hc => ?_⟩
    simp [spec_chunk_list_nil] at hc
  | cons d rest ih =>
    intro n h hr
    by_cases hd : d.memory = 0
    · rw [fill_for, spec_chunk_list_cons_null d rest hd]
      simp only [hd, if_true]
      refine ⟨by simp, fun k c hc => ?_⟩
      simp at hc
    · rw [segments_cons d rest hd] at hr
      have hsz : (d.size : Int) ≤ INT_MAX := hr d (List.mem_cons_self _ _)
      have hrest : ∀ x ∈ segments rest, (x.size : Int) ≤ INT_MAX :=
        fun x hx => hr x (List.mem_cons_of_mem _ hx)
      rw [fill_for, spec_chunk_list_cons d rest hd]
      simp only [hd, if_false]
      rw [toInt32_of_fits _ (by omega) hsz]
      have hnat : ((d.size : Int)).natAbs = d.size := by omega
      rw [hnat]
      obtain ⟨w1, w2⟩ := fill_while_nonneg blk d.size (d.size : Int) (d.memory : Int) n h
        (by omega) (le_refl _)
      obtain ⟨r1, r2⟩ := ih (fill_while d.size blk (d.size : Int) (d.memory : Int) n h).1
        (fill_while d.size blk (d.size : Int) (d.memory : Int) n h).2 hrest
      obtain ⟨f1, f2, _⟩ := fill_for_frame blk rest
        (fill_while d.size blk (d.size : Int) (d.memory : Int) n h).1
        (fill_while d.size blk (d.size : Int) (d.memory : Int) n h).2
      have hlen : ((spec_chunks d).length : Int) = ((d.size : Int) + 4091) / 4092 := by
        rw [spec_chunks_length]; omega
      refine ⟨by rw [r1, w1, List.length_append]; push_cast; omega, fun k c hc => ?_⟩
      by_cases hk : k < (spec_chunks d).length
      · rw [List.getElem?_append_left hk] at hc
        obtain ⟨hk2, hceq⟩ := spec_chunks_getElem? d k c hc
        rw [f2 blk (n + k) (fun hcon => by omega)]
        rw [w2 (n + k) (by omega) (by omega)]
        subst hceq
        congr 2
        · omega
        · unfold spec_chunk_len
          omega
      · rw [List.getElem?_append_right (by omega)] at hc
        have := r2 (k - (spec_chunks d).length) c hc
        have e : (fill_while d.size blk (d.size : Int) (d.memory : Int) n h).1
            + ((k - (spec_chunks d).length : Nat) : Int) = n + k := by
          rw [w1]; omega
        rw [e] at this
        exact this

theorem spec_desc_count_cons (d : i2s_parallel_buffer_desc_t)
    (rest : List i2s_parallel_buffer_desc_t) (hd : ¬ d.memory = 0) :
    spec_desc_count (d :: rest) = (d.size + 4091) / 4092 + spec_desc_count rest := by
  simp [spec_desc_count, segments_cons d rest hd, ceil_div_eq]

theorem spec_desc_count_cons_null (d : i2s_parallel_buffer_desc_t)
    (rest : List i2s_parallel_buffer_desc_t) (hd : d.memory = 0) :
    spec_desc_count (d :: rest) = 0 := by
  simp [spec_desc_count, segments_cons_null d rest hd]

/-- The counting loop while nothing wraps: it adds `ceil(size / 4092)` per
segment. -/
theorem calc_loop_in_range : ∀ (l : List i2s_parallel_buffer_desc_t) (ret : Int),
    0 ≤ ret → (∀ d ∈ segments l, d.size ≤ 4294963204) →
    ret + (spec_desc_count l : Int) ≤ INT_MAX →
    calc_loop l ret = ret + (spec_desc_count l : Int) := by
  intro l
  induction l with
  | nil => intro ret _ _ _; simp [calc_loop, spec_desc_count, segments]
  | cons d rest ih =>
    intro ret h0 hs hc
    by_cases hd : d.memory = 0
    · rw [calc_loop, spec_desc_count_cons_null d rest hd]
      simp [hd]
    · rw [segments_cons d rest hd] at hs
      have hsz : d.size ≤ 4294963204 := hs d (List.mem_cons_self _ _)
      rw [spec_desc_count_cons d rest hd] at hc ⊢
      rw [calc_loop]
      simp only [hd, if_false]
      have step : toInt32 (toUInt32 (toUInt32 ret
          + toUInt32 (toUInt32 ((d.size : Int) + DMA_MAX) - 1) / DMA_MAX))
          = ret + (((d.size + 4091) / 4092 : Nat) : Int) := by
        unfold INT_MAX at hc
        simp only [toInt32, toUInt32, DMA_MAX]
        push_cast at hc ⊢
        omega
      rw [step, ih _ (by omega) (fun x hx => hs x (List.mem_cons_of_mem _ hx))
        (by push_cast at hc ⊢; omega)]
      push_cast
      omega

theorem modify_next_fields (h : dma_heap) (blk : Nat) (i : Int) (p : desc_ptr) (b : Nat) (j : Int) :
    (modify h blk i (fun d => { d with stqe_next := p }) b j).size = (h b j).size ∧
    (modify h blk i (fun d => { d with stqe_next := p }) b j).length = (h b j).length ∧
    (modify h blk i (fun d => { d with stqe_next := p }) b j).buf = (h b j).buf ∧
    (modify h blk i (fun d => { d with stqe_next := p }) b j).eof = (h b j).eof ∧
    (modify h blk i (fun d => { d with stqe_next := p }) b j).sosf = (h b j).sosf ∧
    (modify h blk i (fun d => { d with stqe_next := p }) b j).owner = (h b j).owner ∧
    (modify h blk i (fun d => { d with stqe_next := p }) b j).offset = (h b j).offset := by
  unfold modify
  split <;> simp

theorem modify_next_at (h : dma_heap) (blk : Nat) (i : Int) (p : desc_ptr) :
    (modify h blk i (fun d => { d with stqe_next := p }) blk i).stqe_next = p := by
  simp [modify]

theorem modify_other (h : dma_heap) (blk : Nat) (i : Int) (f : lldesc_t → lldesc_t) (b : Nat)
    (j : Int) (hne : ¬(b = blk ∧ j = i)) : modify h blk i f b j = h b j := by
  simp [modify, hne]

/-- After `fill_dma_desc` the filled entries are linked in a ring: each to the
one after it, the last to entry `0`. -/
theorem fill_dma_desc_links (blk : Nat) (l : List i2s_parallel_buffer_desc_t) (h : dma_heap)
    (k : Int) (h0 : 0 ≤ k) (hk : k < (fill_dma_desc blk l h).1) :
    ((fill_dma_desc blk l h).2 blk k).stqe_next =
      ⟨blk, if k = (fill_dma_desc blk l h).1 - 1 then 0 else k + 1⟩ := by
  obtain ⟨_, _, f3⟩ := fill_for_frame blk l 0 h
  simp only [fill_dma_desc] at hk ⊢
  by_cases hlast : k = (fill_for l blk 0 h).1 - 1
  · rw [if_pos hlast, hlast, modify_next_at]
  · rw [if_neg hlast, modify_other _ _ _ _ _ _ (fun hc => hlast hc.2)]
    obtain ⟨c, hc⟩ := f3 k h0 hk
    rw [hc]
    rfl

/-! ## The claims -/

/-- C2: for every buffer description for which `fill_dma_desc` fills at least
one descriptor (`n ≥ 1`), the `next` link of the last filled entry
`dmadesc[n-1]` is the address of `dmadesc[0]`; every filled entry in front of
it links to the entry after it, so the chain is a closed ring. -/
theorem C2_ring_closure (dmadesc : Nat) (bufdesc : List i2s_parallel_buffer_desc_t)
    (h : dma_heap) (hn : 1 ≤ (fill_dma_desc dmadesc bufdesc h).1) :
    ((fill_dma_desc dmadesc bufdesc h).2 dmadesc
        ((fill_dma_desc dmadesc bufdesc h).1 - 1)).stqe_next = ⟨dmadesc, 0⟩ ∧
    ∀ k : Int, 0 ≤ k → k < (fill_dma_desc dmadesc bufdesc h).1 - 1 →
      ((fill_dma_desc dmadesc bufdesc h).2 dmadesc k).stqe_next = ⟨dmadesc, k + 1⟩ := by
  refine ⟨?_, fun k h0 hk => ?_⟩
  · rw [fill_dma_desc_links dmadesc bufdesc h _ (by omega) (by omega)]
    simp
  · rw [fill_dma_desc_links dmadesc bufdesc h k h0 (by omega)]
    have : ¬ k = (fill_dma_desc dmadesc bufdesc h).1 - 1 := by omega
    simp [this]

/-- C2 on buffer A of the example configuration (three descriptors). -/
theorem C2_ring_closure_witness :
    1 ≤ (fill_dma_desc 3 example_cfg.bufa zero_heap).1 ∧
    ((fill_dma_desc 3 example_cfg.bufa zero_heap).2 3
        ((fill_dma_desc 3 example_cfg.bufa zero_heap).1 - 1)).stqe_next = ⟨3, 0⟩ :=
  ⟨by decide, (C2_ring_closure 3 example_cfg.bufa zero_heap (by decide)).1⟩

/-- C1, amended: for every buffer description whose segment sizes each fit a
C `int` and whose descriptor count fits a C `int`, the count returned by
`calc_needed_dma_descs_for` equals the number `n` of entries that
`fill_dma_desc` fills for the same description. -/
theorem C1_count_eq_filled (dmadesc : Nat) (bufdesc : List i2s_parallel_buffer_desc_t)
    (h : dma_heap) (hsize : sizes_fit_int bufdesc) (hcount : count_fits_int bufdesc) :
    calc_needed_dma_descs_for bufdesc = (fill_dma_desc dmadesc bufdesc h).1 := by
  have h1 := calc_loop_in_range bufdesc 0 (le_refl _)
    (fun d hd => by have := hsize d hd; unfold INT_MAX at this; omega)
    (by unfold count_fits_int at hcount; omega)
  have h2 := (fill_for_in_range dmadesc bufdesc 0 h hsize).1
  rw [spec_chunk_list_length] at h2
  simp only [calc_needed_dma_descs_for, fill_dma_desc]
  rw [h1, h2]

/-- C1, amended, on buffer A of the example configuration. -/
theorem C1_count_eq_filled_witness :
    sizes_fit_int example_cfg.bufa ∧ count_fits_int example_cfg.bufa ∧
    calc_needed_dma_descs_for example_cfg.bufa =
      (fill_dma_desc 3 example_cfg.bufa zero_heap).1 :=
  ⟨by decide, by decide, C1_count_eq_filled 3 example_cfg.bufa zero_heap (by decide) (by decide)⟩

/-- C1 as stated fails: for one segment of `2^31` bytes the counting pass
returns 524801 and the fill pass fills one entry. -/
theorem C1_counterexample :
    calc_needed_dma_descs_for [⟨1073610752, 2147483648⟩, ⟨0, 0⟩] = 524801 ∧
    (fill_dma_desc 3 [⟨1073610752, 2147483648⟩, ⟨0, 0⟩] zero_heap).1 = 1 ∧
    calc_needed_dma_descs_for [⟨1073610752, 2147483648⟩, ⟨0, 0⟩] ≠
      (fill_dma_desc 3 [⟨1073610752, 2147483648⟩, ⟨0, 0⟩] zero_heap).1 := by
  decide

theorem sum_full_chunks (size : Int) : ∀ m : Nat, 4092 * (m : Int) ≤ size →
    ((List.range m).map (fun i : Nat => min 4092 (size - 4092 * (i : Int)))).sum
      = 4092 * (m : Int) := by
  intro m
  induction m with
  | zero => intro _; simp
  | succ m ih =>
    intro hm
    rw [List.range_succ, List.map_append, List.sum_append, ih (by push_cast at hm; omega)]
    simp only [List.map_cons, List.map_nil, List.sum_cons, List.sum_nil]
    push_cast at hm ⊢
    omega

theorem sum_chunks (size : Int) (h0 : 0 ≤ size) :
    ((List.range ((size + 4091) / 4092).toNat).map
      (fun i : Nat => min 4092 (size - 4092 * (i : Int)))).sum = size := by
  obtain ⟨c, hc⟩ : ∃ c : Nat, ((size + 4091) / 4092).toNat = c := ⟨_, rfl⟩
  rw [hc]
  cases c with
  | zero =>
    have : size = 0 := by omega
    simp [this]
  | succ c =>
    rw [List.range_succ, List.map_append, List.sum_append, sum_full_chunks size c (by omega)]
    simp only [List.map_cons, List.map_nil, List.sum_cons, List.sum_nil]
    omega

theorem fill_for_cons_fits (blk : Nat) (d : i2s_parallel_buffer_desc_t)
    (rest : List i2s_parallel_buffer_desc_t) (n : Int) (h : dma_heap)
    (hd : d.memory ≠ 0) (hsize : (d.size : Int) ≤ INT_MAX) :
    fill_for (d :: rest) blk n h =
      fill_for rest blk (fill_while d.size blk (d.size : Int) (d.memory : Int) n h).1
        (fill_while d.size blk (d.size : Int) (d.memory : Int) n h).2 := by
  have hnat : ((d.size : Int)).natAbs = d.size := by omega
  rw [fill_for, if_neg hd]
  dsimp only
  rw [toInt32_of_fits _ (by omega) hsize, hnat]

theorem filled_count_singleton (d : i2s_parallel_buffer_desc_t)
    (hd : d.memory ≠ 0) (hsize : (d.size : Int) ≤ INT_MAX) :
    filled_count [d] = ((d.size : Int) + 4091) / 4092 := by
  have hr : sizes_fit_int [d] := by
    intro x hx
    rw [segments_cons d [] hd, segments_nil, List.mem_singleton] at hx
    rw [hx]; exact hsize
  have h1 := (fill_for_in_range 0 [d] 0 zero_heap hr).1
  rw [spec_chunk_list_length, spec_desc_count_cons d [] hd] at h1
  have h2 := fill_for_fst_eq 0 [d] 0 zero_heap
  have h3 : spec_desc_count [] = 0 := rfl
  rw [h3] at h1
  rw [h2] at h1
  have ar : ∀ (A : Int) (s : Nat), 0 + A = 0 + (((s + 4091) / 4092 + 0 : Nat) : Int) →
      A = ((s : Int) + 4091) / 4092 := by intros; omega
  exact ar _ _ h1

theorem filled_count_append_singleton (pre : List i2s_parallel_buffer_desc_t)
    (d : i2s_parallel_buffer_desc_t)
    (hpre : ∀ p ∈ pre, p.memory ≠ 0) (hd : d.memory ≠ 0) (hsize : (d.size : Int) ≤ INT_MAX) :
    filled_count (pre ++ [d]) = filled_count pre + ((d.size : Int) + 4091) / 4092 := by
  have e := fill_for_fst_eq 0 (pre ++ [d]) 0 zero_heap
  rw [fill_for_append 0 pre [d] 0 zero_heap hpre, fill_for_fst_eq 0 [d], fill_for_fst_eq 0 pre,
    filled_count_singleton d hd hsize] at e
  have ar : ∀ A B C : Int, 0 + B + C = 0 + A → A = B + C := by intros; omega
  exact ar _ _ _ e

theorem fill_for_fst_zero (blk : Nat) (l : List i2s_parallel_buffer_desc_t) (h : dma_heap) :
    (fill_for l blk 0 h).1 = filled_count l := by
  rw [fill_for_fst_eq]
  exact zero_add _

/-- The entries written for a leading segment whose size fits `int`. -/
theorem fill_for_cons_entries (blk : Nat) (d : i2s_parallel_buffer_desc_t)
    (post : List i2s_parallel_buffer_desc_t) (n : Int) (h : dma_heap)
    (hd : d.memory ≠ 0) (hsize : (d.size : Int) ≤ INT_MAX)
    (j : Int) (hlo : n ≤ j) (hhi : j < n + ((d.size : Int) + 4091) / 4092) :
    (fill_for (d :: post) blk n h).2 blk j =
      spec_entry blk j ((d.memory : Int) + 4092 * (j - n),
        min 4092 ((d.size : Int) - 4092 * (j - n))) := by
  rw [fill_for_cons_fits blk d post n h hd hsize]
  obtain ⟨w1, w2⟩ := fill_while_nonneg blk d.size (d.size : Int) (d.memory : Int)
      n h (by omega) (le_refl _)
  obtain ⟨_, f2, _⟩ := fill_for_frame blk post
      (fill_while d.size blk (d.size : Int) (d.memory : Int) n h).1
      (fill_while d.size blk (d.size : Int) (d.memory : Int) n h).2
  rw [f2 blk j (fun hc => by omega), w2 j hlo (by omega)]

/-- The entries written for a segment whose size fits `int`, in the memory
the segment loop leaves, whatever comes in front of and after the segment. -/
theorem fill_for_segment (blk : Nat) (pre post : List i2s_parallel_buffer_desc_t)
    (d : i2s_parallel_buffer_desc_t) (h : dma_heap)
    (hpre : ∀ p ∈ pre, p.memory ≠ 0) (hd : d.memory ≠ 0) (hsize : (d.size : Int) ≤ INT_MAX)
    (j : Int) (hlo : filled_count pre ≤ j) (hhi : j < filled_count (pre ++ [d])) :
    (fill_for (pre ++ d :: post) blk 0 h).2 blk j =
      spec_entry blk j ((d.memory : Int) + 4092 * (j - filled_count pre),
        min 4092 ((d.size : Int) - 4092 * (j - filled_count pre))) := by
  rw [filled_count_append_singleton pre d hpre hd hsize] at hhi
  rw [fill_for_append blk pre (d :: post) 0 h hpre]
  rw [← fill_for_fst_zero blk pre h] at hlo hhi ⊢
  exact fill_for_cons_entries blk d post _ _ hd hsize j hlo hhi

/-- C3, amended: for every segment whose size fits a C `int`, wherever it
stands in a buffer description, every descriptor that `fill_dma_desc` produces
for the segment has length and size at most 4092, and the lengths of the
descriptors produced for the segment sum to the segment's size. -/
theorem C3_segment_chunks (dmadesc : Nat) (pre post : List i2s_parallel_buffer_desc_t)
    (d : i2s_parallel_buffer_desc_t) (h : dma_heap)
    (hpre : ∀ p ∈ pre, p.memory ≠ 0) (hd : d.memory ≠ 0) (hsize : (d.size : Int) ≤ INT_MAX) :
    (∀ k, (segment_range pre d).1 ≤ k → k < (segment_range pre d).2 →
      ((fill_dma_desc dmadesc (pre ++ d :: post) h).2 dmadesc k).length ≤ 4092 ∧
      ((fill_dma_desc dmadesc (pre ++ d :: post) h).2 dmadesc k).size ≤ 4092) ∧
    ((List.range ((segment_range pre d).2 - (segment_range pre d).1).toNat).map
      (fun i : Nat => ((fill_dma_desc dmadesc (pre ++ d :: post) h).2 dmadesc
        ((segment_range pre d).1 + (i : Int))).length)).sum = (d.size : Int) := by
  have hc := filled_count_append_singleton pre d hpre hd hsize
  have hent := fill_for_segment dmadesc pre post d h hpre hd hsize
  simp only [segment_range, fill_dma_desc]
  refine ⟨fun k hlo hhi => ?_, ?_⟩
  · obtain ⟨m1, m2, _⟩ := modify_next_fields (fill_for (pre ++ d :: post) dmadesc 0 h).2 dmadesc
      ((fill_for (pre ++ d :: post) dmadesc 0 h).1 - 1) ⟨dmadesc, 0⟩ dmadesc k
    rw [m1, m2, hent k hlo hhi]
    simp only [spec_entry]
    have ar : ∀ x : Int, min 4092 x ≤ 4092 := by intros; omega
    exact ⟨ar _, ar _⟩
  · have hmap : ∀ i ∈ List.range (filled_count (pre ++ [d]) - filled_count pre).toNat,
        (fun i : Nat => (modify (fill_for (pre ++ d :: post) dmadesc 0 h).2 dmadesc
          ((fill_for (pre ++ d :: post) dmadesc 0 h).1 - 1)
          (fun d => { d with stqe_next := ⟨dmadesc, 0⟩ }) dmadesc
          (filled_count pre + (i : Int))).length) i
        = (fun i : Nat => min 4092 ((d.size : Int) - 4092 * (i : Int))) i := by
      intro i hi
      rw [List.mem_range] at hi
      obtain ⟨_, m2, _⟩ := modify_next_fields (fill_for (pre ++ d :: post) dmadesc 0 h).2 dmadesc
        ((fill_for (pre ++ d :: post) dmadesc 0 h).1 - 1) ⟨dmadesc, 0⟩ dmadesc
        (filled_count pre + (i : Int))
      have b1 : filled_count pre ≤ filled_count pre + (i : Int) := by omega
      have b2 : filled_count pre + (i : Int) < filled_count (pre ++ [d]) := by
        revert hi
        generalize filled_count (pre ++ [d]) = A
        generalize filled_count pre = B
        intro hi
        omega
      simp only
      rw [m2, hent _ b1 b2]
      simp only [spec_entry]
      have ar : ∀ x y : Int, x + y - x = y := by intros; omega
      rw [ar]
    rw [List.map_congr_left hmap]
    have e : filled_count (pre ++ [d]) - filled_count pre = ((d.size : Int) + 4091) / 4092 := by
      rw [hc]
      have ar : ∀ x y : Int, x + y - x = y := by intros; omega
      exact ar _ _
    rw [e]
    exact sum_chunks (d.size : Int) (Int.ofNat_nonneg _)

/-- C3, amended, on a segment of 9000 bytes that follows one of 5000 bytes. -/
theorem C3_segment_chunks_witness :
    ((List.range ((segment_range [⟨1073610752, 5000⟩] ⟨1073676288, 9000⟩).2
        - (segment_range [⟨1073610752, 5000⟩] ⟨1073676288, 9000⟩).1).toNat).map
      (fun i : Nat => ((fill_dma_desc 3
        ([⟨1073610752, 5000⟩] ++ ⟨1073676288, 9000⟩ :: [⟨0, 0⟩]) zero_heap).2 3
        ((segment_range [⟨1073610752, 5000⟩] ⟨1073676288, 9000⟩).1 + (i : Int))).length)).sum
      = ((9000 : Nat) : Int) :=
  (C3_segment_chunks 3 [⟨1073610752, 5000⟩] [⟨0, 0⟩] ⟨1073676288, 9000⟩ zero_heap
    (by decide) (by decide) (by decide)).2

/-- C3 as stated fails: for one segment of `2^31` bytes `int len` is negative,
`fill_dma_desc` produces one descriptor, entry `0`, and the lengths of the
descriptors produced for the segment do not sum to the segment's size. -/
theorem C3_counterexample :
    segment_range [] ⟨1073610752, 2147483648⟩ = (0, 1) ∧
    ((List.range ((segment_range [] ⟨1073610752, 2147483648⟩).2
        - (segment_range [] ⟨1073610752, 2147483648⟩).1).toNat).map
      (fun i : Nat => ((fill_dma_desc 3
        ([] ++ ⟨1073610752, 2147483648⟩ :: [⟨0, 0⟩]) zero_heap).2 3
        ((segment_range [] ⟨1073610752, 2147483648⟩).1 + (i : Int))).length)).sum
      ≠ ((2147483648 : Nat) : Int) := by
  decide

theorem calc_eq_spec (l : List i2s_parallel_buffer_desc_t)
    (hs : sizes_round_up l) (hc : count_fits_int l) :
    calc_needed_dma_descs_for l = (spec_desc_count l : Int) := by
  have := calc_loop_in_range l 0 (le_refl _) hs (by rw [zero_add]; exact hc)
  rw [zero_add] at this
  exact this

/-- One segment of 4093 bytes: two descriptors, of lengths 4092 and 1. -/
theorem fill_4093 (d : i2s_parallel_buffer_desc_t) (hd : d.memory ≠ 0) (hs : d.size = 4093)
    (dmadesc : Nat) (h : dma_heap) :
    (fill_dma_desc dmadesc [d, ⟨0, 0⟩] h).1 = 2 ∧
    ((fill_dma_desc dmadesc [d, ⟨0, 0⟩] h).2 dmadesc 0).length = 4092 ∧
    ((fill_dma_desc dmadesc [d, ⟨0, 0⟩] h).2 dmadesc 1).length = 1 := by
  have hfit : (d.size : Int) ≤ INT_MAX := by rw [hs]; decide
  have s2 : segments [d, ⟨0, 0⟩] = [d] := by
    rw [segments_cons d _ hd, segments_cons_null _ _ rfl]
  have c2 : spec_desc_count [d, ⟨0, 0⟩] = 2 := by
    rw [spec_desc_count_cons d _ hd, spec_desc_count_cons_null _ _ rfl, hs]
  have hfits : sizes_fit_int [d, ⟨0, 0⟩] := by
    intro x hx
    rw [s2, List.mem_singleton] at hx
    rw [hx]; exact hfit
  have hn : (fill_for [d, ⟨0, 0⟩] dmadesc 0 h).1 = 2 := by
    have := (fill_for_in_range dmadesc [d, ⟨0, 0⟩] 0 h hfits).1
    rw [spec_chunk_list_length, c2] at this
    exact this
  have e0 := fill_for_cons_entries dmadesc d [⟨0, 0⟩] 0 h hd hfit 0 (le_refl _) (by omega)
  have e1 := fill_for_cons_entries dmadesc d [⟨0, 0⟩] 0 h hd hfit 1 (by omega) (by omega)
  have m0 := (modify_next_fields (fill_for [d, ⟨0, 0⟩] dmadesc 0 h).2 dmadesc
      ((fill_for [d, ⟨0, 0⟩] dmadesc 0 h).1 - 1) ⟨dmadesc, 0⟩ dmadesc 0).2.1
  have m1 := (modify_next_fields (fill_for [d, ⟨0, 0⟩] dmadesc 0 h).2 dmadesc
      ((fill_for [d, ⟨0, 0⟩] dmadesc 0 h).1 - 1) ⟨dmadesc, 0⟩ dmadesc 1).2.1
  have a0 : min (4092 : Int) ((d.size : Int) - 4092 * (0 - 0)) = 4092 := by omega
  have a1 : min (4092 : Int) ((d.size : Int) - 4092 * (1 - 0)) = 1 := by omega
  refine ⟨hn, ?_, ?_⟩
  · show (modify _ _ _ _ _ _).length = 4092
    rw [m0, e0]
    exact a0
  · show (modify _ _ _ _ _ _).length = 1
    rw [m1, e1]
    exact a1

/-- C4, amended: for every buffer description whose segment sizes are at most
`2^32 - 4092` and whose sum of `ceil(size / 4092)` fits a C `int`,
`calc_needed_dma_descs_for` returns that sum. One segment of 4092 bytes gives
1, one of 4093 bytes gives 2, and `fill_dma_desc` gives the two descriptors
the lengths 4092 and 1, in that order; segments of 5000 and 3000 bytes give 3. -/
theorem C4_count_is_sum_of_ceilings (bufdesc : List i2s_parallel_buffer_desc_t)
    (hsize : sizes_round_up bufdesc) (hcount : count_fits_int bufdesc)
    (m1 m2 dmadesc : Nat) (h : dma_heap) :
    calc_needed_dma_descs_for bufdesc = (spec_desc_count bufdesc : Int) ∧
    calc_needed_dma_descs_for [⟨m1 + 1, 4092⟩, ⟨0, 0⟩] = 1 ∧
    calc_needed_dma_descs_for [⟨m1 + 1, 4093⟩, ⟨0, 0⟩] = 2 ∧
    (fill_dma_desc dmadesc [⟨m1 + 1, 4093⟩, ⟨0, 0⟩] h).1 = 2 ∧
    ((fill_dma_desc dmadesc [⟨m1 + 1, 4093⟩, ⟨0, 0⟩] h).2 dmadesc 0).length = 4092 ∧
    ((fill_dma_desc dmadesc [⟨m1 + 1, 4093⟩, ⟨0, 0⟩] h).2 dmadesc 1).length = 1 ∧
    calc_needed_dma_descs_for [⟨m1 + 1, 5000⟩, ⟨m2 + 1, 3000⟩, ⟨0, 0⟩] = 3 := by
  have n1 : ¬ (⟨m1 + 1, 4092⟩ : i2s_parallel_buffer_desc_t).memory = 0 := Nat.succ_ne_zero _
  have n2 : ¬ (⟨m1 + 1, 4093⟩ : i2s_parallel_buffer_desc_t).memory = 0 := Nat.succ_ne_zero _
  have n3 : ¬ (⟨m1 + 1, 5000⟩ : i2s_parallel_buffer_desc_t).memory = 0 := Nat.succ_ne_zero _
  have n4 : ¬ (⟨m2 + 1, 3000⟩ : i2s_parallel_buffer_desc_t).memory = 0 := Nat.succ_ne_zero _
  obtain ⟨f1, f2, f3⟩ := fill_4093 ⟨m1 + 1, 4093⟩ n2 rfl dmadesc h
  refine ⟨calc_eq_spec bufdesc hsize hcount, ?_, ?_, f1, f2, f3, ?_⟩
  · simp only [calc_needed_dma_descs_for, calc_loop, n1, if_false, if_true]
    decide
  · simp only [calc_needed_dma_descs_for, calc_loop, n2, if_false, if_true]
    decide
  · simp only [calc_needed_dma_descs_for, calc_loop, n3, n4, if_false, if_true]
    decide

/-- C4, amended, on buffer A of the example configuration. -/
theorem C4_count_is_sum_of_ceilings_witness :
    sizes_round_up example_cfg.bufa ∧ count_fits_int example_cfg.bufa ∧
    calc_needed_dma_descs_for example_cfg.bufa = (spec_desc_count example_cfg.bufa : Int) :=
  ⟨by decide, by decide,
    (C4_count_is_sum_of_ceilings example_cfg.bufa (by decide) (by decide) 0 0 0 zero_heap).1⟩

/-- C4 as stated fails: for one segment of `2^32 - 1` bytes the rounding up
wraps in `size_t` and `calc_needed_dma_descs_for` returns 0, while
`ceil(size / 4092)` is 1049602. -/
theorem C4_counterexample :
    calc_needed_dma_descs_for [⟨1073610752, 4294967295⟩, ⟨0, 0⟩] = 0 ∧
    spec_desc_count [⟨1073610752, 4294967295⟩, ⟨0, 0⟩] = 1049602 ∧
    calc_needed_dma_descs_for [⟨1073610752, 4294967295⟩, ⟨0, 0⟩] ≠
      (spec_desc_count [⟨1073610752, 4294967295⟩, ⟨0, 0⟩] : Int) := by
  decide

/-- C10, amended: for every buffer description whose segment sizes each fit a
C `int`, every filled entry `k < n` has a chunk of the description (the
chunks of the segments in list order, chunk `j` of a segment starting at the
segment's memory pointer plus `4092 * j`), and has `size = length =` the
chunk's length, `buf =` the chunk's start address, `eof = 0`, `sosf = 0`,
`owner = 1` and `offset = 0`; every entry `k < n - 1` has its `next` link
equal to the address of entry `k + 1`. -/
theorem C10_entries (dmadesc : Nat) (bufdesc : List i2s_parallel_buffer_desc_t)
    (h : dma_heap) (hsize : sizes_fit_int bufdesc) (k : Nat)
    (hk : (k : Int) < (fill_dma_desc dmadesc bufdesc h).1) :
    ∃ c, (spec_chunk_list bufdesc)[k]? = some c ∧
      ((fill_dma_desc dmadesc bufdesc h).2 dmadesc k).size = c.2 ∧
      ((fill_dma_desc dmadesc bufdesc h).2 dmadesc k).length = c.2 ∧
      ((fill_dma_desc dmadesc bufdesc h).2 dmadesc k).buf = c.1 ∧
      ((fill_dma_desc dmadesc bufdesc h).2 dmadesc k).eof = 0 ∧
      ((fill_dma_desc dmadesc bufdesc h).2 dmadesc k).sosf = 0 ∧
      ((fill_dma_desc dmadesc bufdesc h).2 dmadesc k).owner = 1 ∧
      ((fill_dma_desc dmadesc bufdesc h).2 dmadesc k).offset = 0 ∧
      ((k : Int) < (fill_dma_desc dmadesc bufdesc h).1 - 1 →
        ((fill_dma_desc dmadesc bufdesc h).2 dmadesc k).stqe_next = ⟨dmadesc, (k : Int) + 1⟩) := by
  obtain ⟨r1, r2⟩ := fill_for_in_range dmadesc bufdesc 0 h hsize
  have hk2 : (k : Int) < (fill_for bufdesc dmadesc 0 h).1 := hk
  have hlt : k < (spec_chunk_list bufdesc).length := by
    rw [r1] at hk2
    omega
  have hget : (spec_chunk_list bufdesc)[k]? = some ((spec_chunk_list bufdesc)[k]) :=
    List.getElem?_eq_getElem hlt
  have hent := r2 k _ hget
  rw [zero_add] at hent
  obtain ⟨m1, m2, m3, m4, m5, m6, m7⟩ := modify_next_fields (fill_for bufdesc dmadesc 0 h).2
    dmadesc ((fill_for bufdesc dmadesc 0 h).1 - 1) ⟨dmadesc, 0⟩ dmadesc k
  refine ⟨_, hget, ?_, ?_, ?_, ?_, ?_, ?_, ?_, ?_⟩
  · exact m1.trans (by rw [hent]; rfl)
  · exact m2.trans (by rw [hent]; rfl)
  · exact m3.trans (by rw [hent]; rfl)
  · exact m4.trans (by rw [hent]; rfl)
  · exact m5.trans (by rw [hent]; rfl)
  · exact m6.trans (by rw [hent]; rfl)
  · exact m7.trans (by rw [hent]; rfl)
  · intro hlast
    have hne : ¬(dmadesc = dmadesc ∧ (k : Int) = (fill_for bufdesc dmadesc 0 h).1 - 1) := by
      intro hc
      have h1 := hc.2
      have h2 : (k : Int) < (fill_for bufdesc dmadesc 0 h).1 - 1 := hlast
      omega
    show (modify _ _ _ _ _ _).stqe_next = _
    rw [modify_other _ _ _ _ _ _ hne, hent]
    rfl

/-- C10, amended, on entry 1 of buffer A of the example configuration. -/
theorem C10_entries_witness :
    sizes_fit_int example_cfg.bufa ∧
    ((1 : Nat) : Int) < (fill_dma_desc 3 example_cfg.bufa zero_heap).1 ∧
    ∃ c, (spec_chunk_list example_cfg.bufa)[1]? = some c ∧
      ((fill_dma_desc 3 example_cfg.bufa zero_heap).2 3 (1 : Nat)).size = c.2 ∧
      ((fill_dma_desc 3 example_cfg.bufa zero_heap).2 3 (1 : Nat)).length = c.2 ∧
      ((fill_dma_desc 3 example_cfg.bufa zero_heap).2 3 (1 : Nat)).buf = c.1 ∧
      ((fill_dma_desc 3 example_cfg.bufa zero_heap).2 3 (1 : Nat)).eof = 0 ∧
      ((fill_dma_desc 3 example_cfg.bufa zero_heap).2 3 (1 : Nat)).sosf = 0 ∧
      ((fill_dma_desc 3 example_cfg.bufa zero_heap).2 3 (1 : Nat)).owner = 1 ∧
      ((fill_dma_desc 3 example_cfg.bufa zero_heap).2 3 (1 : Nat)).offset = 0 ∧
      (((1 : Nat) : Int) < (fill_dma_desc 3 example_cfg.bufa zero_heap).1 - 1 →
        ((fill_dma_desc 3 example_cfg.bufa zero_heap).2 3 (1 : Nat)).stqe_next
          = ⟨3, ((1 : Nat) : Int) + 1⟩) :=
  ⟨by decide, by decide, C10_entries 3 example_cfg.bufa zero_heap (by decide) 1 (by decide)⟩

/-- C10 as stated fails: for one segment of `2^31` bytes entry `0` is filled,
its chunk has length 4092, and its `size` and `length` fields are assigned the
negative `len`, not 4092. -/
theorem C10_counterexample :
    (0 : Int) < (fill_dma_desc 3 [⟨1073610752, 2147483648⟩, ⟨0, 0⟩] zero_heap).1 ∧
    (spec_chunk_list [⟨1073610752, 2147483648⟩, ⟨0, 0⟩])[0]? = some (1073610752, 4092) ∧
    ((fill_dma_desc 3 [⟨1073610752, 2147483648⟩, ⟨0, 0⟩] zero_heap).2 3 0).size ≠ 4092 ∧
    ((fill_dma_desc 3 [⟨1073610752, 2147483648⟩, ⟨0, 0⟩] zero_heap).2 3 0).length ≠ 4092 := by
  refine ⟨by decide, ?_, by decide, by decide⟩
  have hd : ¬ (⟨1073610752, 2147483648⟩ : i2s_parallel_buffer_desc_t).memory = 0 := by decide
  rw [spec_chunk_list_cons _ _ hd, spec_chunk_list_cons_null _ _ rfl, List.append_nil]
  have hlt : 0 < ceil_div (⟨1073610752, 2147483648⟩ : i2s_parallel_buffer_desc_t).size 4092 := by
    decide
  simp only [spec_chunks, List.getElem?_map, List.getElem?_range hlt, Option.map_some']
  rfl

/-- C7, what the code does on an empty buffer description (its first entry is
the sentinel): the count is 0 and no entry is filled, but the link-back
statement is not guarded and writes the `next` link of the entry in front of
the array, `dmadesc[-1]`. -/
theorem C7_empty_list_writes_before_array (dmadesc sz : Nat)
    (rest : List i2s_parallel_buffer_desc_t) (h : dma_heap) :
    calc_needed_dma_descs_for (⟨0, sz⟩ :: rest) = 0 ∧
    (fill_dma_desc dmadesc (⟨0, sz⟩ :: rest) h).1 = 0 ∧
    (fill_dma_desc dmadesc (⟨0, sz⟩ :: rest) h).2 =
      modify h dmadesc (-1) (fun d => { d with stqe_next := ⟨dmadesc, 0⟩ }) ∧
    ((fill_dma_desc dmadesc (⟨0, sz⟩ :: rest) h).2 dmadesc (-1)).stqe_next = ⟨dmadesc, 0⟩ ∧
    (fill_dma_desc 3 [⟨0, 0⟩] zero_heap).2 3 (-1) ≠ zero_heap 3 (-1) := by
  refine ⟨rfl, rfl, rfl, ?_, by decide⟩
  show (modify _ _ _ _ _ _).stqe_next = _
  exact modify_next_at _ _ _ _

/-- C6: for a unit whose `i2s_state` entry is `NULL`,
`i2s_parallel_flip_to_buffer` returns at the guard and leaves the whole
program state unchanged. -/
theorem C6_flip_unset_is_noop (dev : i2s_dev_ptr) (bufid : Int) (s : machine)
    (hnull : s.i2s_state (i2snum dev) = none) :
    i2s_parallel_flip_to_buffer dev bufid s = s := by
  unfold i2s_parallel_flip_to_buffer
  simp only [hnull]

/-- C6 on unit 1 after only unit 0 has been set up. -/
theorem C6_flip_unset_is_noop_witness :
    example_unit0.i2s_state (i2snum .I2S1) = none ∧
    i2s_parallel_flip_to_buffer .I2S1 1 example_unit0
      = example_unit0 :=
  ⟨by decide, C6_flip_unset_is_noop .I2S1 1 example_unit0
    (by decide)⟩

theorem flip_some (dev : i2s_dev_ptr) (bufid : Int) (s : machine) (st : i2s_parallel_state_t)
    (hst : s.i2s_state (i2snum dev) = some st) (p : desc_ptr)
    (hp : p = if bufid = 0 then ⟨st.dmadesc_a, 0⟩ else ⟨st.dmadesc_b, 0⟩) (h2 : dma_heap)
    (hh : h2 = modify (modify s.heap st.dmadesc_a (st.desccount_a - 1)
          (fun d => { d with stqe_next := p })) st.dmadesc_b (st.desccount_b - 1)
          (fun d => { d with stqe_next := p })) :
    i2s_parallel_flip_to_buffer dev bufid s = { s with heap := h2 } := by
  unfold i2s_parallel_flip_to_buffer
  simp only [hst, hp, hh]

/-- Writing the same link to the same two entries a second time changes
nothing. -/
theorem modify_twice (h : dma_heap) (a b : Nat) (i j : Int) (p : desc_ptr) :
    modify (modify (modify (modify h a i (fun d => { d with stqe_next := p })) b j
      (fun d => { d with stqe_next := p })) a i (fun d => { d with stqe_next := p })) b j
      (fun d => { d with stqe_next := p })
    = modify (modify h a i (fun d => { d with stqe_next := p })) b j
      (fun d => { d with stqe_next := p }) := by
  funext x y
  simp only [modify]
  split <;> split <;> rfl

/-- C5: for every unit set up with two non-empty chains and every buffer
selector, after `i2s_parallel_flip_to_buffer` the `next` links of chain A's
last descriptor and of chain B's last descriptor both hold the head of the
selected chain (chain A for 0, chain B for 1 and any other selector); a
second flip to the same buffer leaves the state as the first flip left it. -/
theorem C5_flip_retargets_both (dev : i2s_dev_ptr) (bufid : Int) (s : machine)
    (st : i2s_parallel_state_t) (hst : s.i2s_state (i2snum dev) = some st)
    (ha : 1 ≤ st.desccount_a) (hb : 1 ≤ st.desccount_b) :
    (0 ≤ st.desccount_a - 1 ∧ 0 ≤ st.desccount_b - 1) ∧
    ((i2s_parallel_flip_to_buffer dev bufid s).heap st.dmadesc_a
        (st.desccount_a - 1)).stqe_next
      = (if bufid = 0 then ⟨st.dmadesc_a, 0⟩ else ⟨st.dmadesc_b, 0⟩) ∧
    ((i2s_parallel_flip_to_buffer dev bufid s).heap st.dmadesc_b
        (st.desccount_b - 1)).stqe_next
      = (if bufid = 0 then ⟨st.dmadesc_a, 0⟩ else ⟨st.dmadesc_b, 0⟩) ∧
    (i2s_parallel_flip_to_buffer dev bufid s).i2s_state = s.i2s_state ∧
    i2s_parallel_flip_to_buffer dev bufid (i2s_parallel_flip_to_buffer dev bufid s)
      = i2s_parallel_flip_to_buffer dev bufid s := by
  have e := flip_some dev bufid s st hst _ rfl _ rfl
  have hst2 : (i2s_parallel_flip_to_buffer dev bufid s).i2s_state (i2snum dev) = some st := by
    rw [e]; exact hst
  have e2 := flip_some dev bufid (i2s_parallel_flip_to_buffer dev bufid s) st hst2 _ rfl _ rfl
  refine ⟨⟨by omega, by omega⟩, ?_, ?_, ?_, ?_⟩
  · rw [e]
    simp only [modify]
    split <;> simp
  · rw [e]
    simp [modify]
  · rw [e]
  · rw [e2, e]
    simp only [modify_twice]

/-- C5 on unit 1 set up with the example configuration, flipped to buffer B. -/
theorem C5_flip_retargets_both_witness :
    example_unit1.i2s_state (i2snum .I2S1) = some ⟨0, 1, 3, 2⟩ ∧
    ((i2s_parallel_flip_to_buffer .I2S1 1 example_unit1).heap 0 (3 - 1)).stqe_next = ⟨1, 0⟩ ∧
    ((i2s_parallel_flip_to_buffer .I2S1 1 example_unit1).heap 1 (2 - 1)).stqe_next = ⟨1, 0⟩ ∧
    i2s_parallel_flip_to_buffer .I2S1 1 (i2s_parallel_flip_to_buffer .I2S1 1 example_unit1)
      = i2s_parallel_flip_to_buffer .I2S1 1 example_unit1 :=
  ⟨by decide,
    (C5_flip_retargets_both .I2S1 1 example_unit1 ⟨0, 1, 3, 2⟩
      (by decide) (by decide) (by decide)).2.1,
    (C5_flip_retargets_both .I2S1 1 example_unit1 ⟨0, 1, 3, 2⟩
      (by decide) (by decide) (by decide)).2.2.1,
    (C5_flip_retargets_both .I2S1 1 example_unit1 ⟨0, 1, 3, 2⟩
      (by decide) (by decide) (by decide)).2.2.2.2⟩

theorem setup_regs (sig : signal_idx) (dev : i2s_dev_ptr) (cfg : i2s_parallel_config_t) (s : machine) :
    (i2s_parallel_setup sig dev cfg s).regs dev =
      setup_start_regs ⟨s.next_block, 0⟩ (setup_init_regs cfg (s.regs dev)) := by
  cases dev <;> rfl

/-- C9: for every positive requested clock frequency `clkspeed_hz`, the main
clock divider that `i2s_parallel_setup` computes and stores in
`clkm_conf.clkm_div_num` is the integer quotient `80000000 / clkspeed_hz`
with the remainder dropped; for 1,000,000 Hz it is 80 and for 1,300,000 Hz it
is 61. -/
theorem C9_clock_divider (sig : signal_idx) (dev : i2s_dev_ptr) (cfg : i2s_parallel_config_t) (s : machine)
    (hpos : 0 < cfg.clkspeed_hz) :
    ((i2s_parallel_setup sig dev cfg s).regs dev).clkm_conf.clkm_div_num
      = 80000000 / cfg.clkspeed_hz ∧
    ((i2s_parallel_setup sig dev cfg s).regs dev).clkm_conf.clkm_div_num * cfg.clkspeed_hz
      ≤ 80000000 ∧
    80000000 <
      (((i2s_parallel_setup sig dev cfg s).regs dev).clkm_conf.clkm_div_num + 1) * cfg.clkspeed_hz ∧
    (cfg.clkspeed_hz = 1000000 →
      ((i2s_parallel_setup sig dev cfg s).regs dev).clkm_conf.clkm_div_num = 80) ∧
    (cfg.clkspeed_hz = 1300000 →
      ((i2s_parallel_setup sig dev cfg s).regs dev).clkm_conf.clkm_div_num = 61) := by
  have e : ((i2s_parallel_setup sig dev cfg s).regs dev).clkm_conf.clkm_div_num
      = 80000000 / cfg.clkspeed_hz := by
    rw [setup_regs]
    show Int.tdiv 80000000 cfg.clkspeed_hz = 80000000 / cfg.clkspeed_hz
    exact Int.tdiv_eq_ediv (by decide) (le_of_lt hpos)
  rw [e]
  refine ⟨rfl, Int.ediv_mul_le _ (ne_of_gt hpos), Int.lt_ediv_add_one_mul_self _ hpos, ?_, ?_⟩
  · intro h; rw [h]; decide
  · intro h; rw [h]; decide

/-- C9 on the example configuration: 1,300,000 Hz gives the divider 61. -/
theorem C9_clock_divider_witness :
    (0 : Int) < example_cfg.clkspeed_hz ∧
    ((i2s_parallel_setup example_signals .I2S0 example_cfg boot).regs .I2S0).clkm_conf.clkm_div_num = 61 :=
  ⟨by decide,
    (C9_clock_divider example_signals .I2S0 example_cfg boot (by decide)).2.2.2.2 rfl⟩

end I2SParallel
